import Mathlib

/-!
# Verification of the keynest keystore engine

Shallow embedding of the keynest secret-store engine (Rust) into Lean 4.
Bytes are modelled as `List Nat`; 32-bit machine integers are `Nat` with an
explicit `% 2^32` at the single place where overflow can occur; fallible Rust
functions (`Result`, panics) are modelled with `Except`, `Option` and an
explicit three-way result type.  Randomness (salts, nonces, temp-file names)
and timestamps enter as explicit parameters.
-/

/-- A byte buffer (`Vec<u8>` / `&[u8]`).  Individual bytes are `Nat`s. -/
abbrev Bytes := List Nat

/-- `u32::to_le_bytes`: the four little-endian base-256 digits of a `u32`. -/
def u32ToLe (n : Nat) : Bytes :=
  [n % 256, n / 256 % 256, n / 65536 % 256, n / 16777216 % 256]

/-- `u32::from_le_bytes`: reassemble a `u32` from four little-endian bytes. -/
def leToU32 (a b c d : Nat) : Nat :=
  a + 256 * b + 65536 * c + 16777216 * d

/-- `data[off..off+4].try_into()` followed by `u32::from_le_bytes`:
succeeds exactly on a 4-byte slice. -/
def readU32 (l : Bytes) : Except String Nat :=
  match l with
  | [a, b, c, d] => .ok (leToU32 a b c d)
  | _ => .error "could not convert slice to array"

/-- Single-byte indexing `data[i]` (used only after a length guard). -/
def readByte (data : Bytes) (i : Nat) : Nat :=
  (data.drop i).headD 0

/-- `KdfParams` from `src/crypto/kdf.rs`: the validated Argon2 cost triple.
Fields are `u32` in the source. -/
structure KdfParams where
  mem_cost_kib : Nat
  time_cost : Nat
  parallelism : Nat
deriving DecidableEq, Repr

/-- `KdfParams::default()`: 64 MiB, 3 iterations, 1 lane. -/
def KdfParams.default : KdfParams :=
  { mem_cost_kib := 64 * 1024, time_cost := 3, parallelism := 1 }

/-- `KdfParams::validate` from `src/crypto/kdf.rs`.  The product
`8 * parallelism` is computed in `u32`, hence the `% 2^32`. -/
def KdfParams.validate (p : KdfParams) : Except String Unit :=
  if p.mem_cost_kib < 8 then .error "argon2 memory cost too low"
  else if p.time_cost < 1 then .error "argon2 time cost must be >= 1"
  else if p.parallelism < 1 then .error "argon2 parallelism must be >= 1"
  else if p.mem_cost_kib < (8 * p.parallelism) % 4294967296 then
    .error "argon2 memory cost must be at least 8 * parallelism"
  else .ok ()

/-- `KdfParams::new`: construct and validate. -/
def KdfParams.new (mem_cost_kib time_cost parallelism : Nat) :
    Except String KdfParams :=
  let params : KdfParams := ⟨mem_cost_kib, time_cost, parallelism⟩
  match params.validate with
  | .error e => .error e
  | .ok _ => .ok params

/-- The magic bytes `b"KNST"` (`src/crypto/header.rs`, `src/format/mod.rs`). -/
def MAGIC : Bytes := [75, 78, 83, 84]

/-- `Header` from `src/crypto/header.rs`: version byte, KDF params, 16-byte
salt, 24-byte nonce.  `Header::LEN = 57`. -/
structure Header where
  version : Nat
  kdf : KdfParams
  salt : Bytes
  nonce : Bytes
deriving DecidableEq, Repr

/-- `Header::new`: always version 1 (the source returns `Ok` unconditionally). -/
def Header.new (kdf : KdfParams) (salt nonce : Bytes) : Header :=
  ⟨1, kdf, salt, nonce⟩

/-- `Header::to_bytes`: magic, version, three LE u32s, salt, nonce. -/
def Header.to_bytes (h : Header) : Bytes :=
  MAGIC ++ [h.version] ++ u32ToLe h.kdf.mem_cost_kib ++ u32ToLe h.kdf.time_cost
    ++ u32ToLe h.kdf.parallelism ++ h.salt ++ h.nonce

/-- `Header::from_bytes`: parse a 57-byte header, returning the header and the
number of bytes consumed. -/
def Header.from_bytes (data : Bytes) : Except String (Header × Nat) :=
  if data.length < 57 then .error "keynest file too short"
  else if data.take 4 ≠ MAGIC then .error "invalid keynest file"
  else
    let version := readByte data 4
    if version ≠ 1 then .error "unsupported keynest version"
    else
      match readU32 ((data.drop 5).take 4) with
      | .error e => .error e
      | .ok mem_cost_kib =>
        match readU32 ((data.drop 9).take 4) with
        | .error e => .error e
        | .ok time_cost =>
          match readU32 ((data.drop 13).take 4) with
          | .error e => .error e
          | .ok parallelism =>
            let salt := (data.drop 17).take 16
            let nonce := (data.drop 33).take 24
            match KdfParams.new mem_cost_kib time_cost parallelism with
            | .error e => .error e
            | .ok kdf => .ok (⟨version, kdf, salt, nonce⟩, 57)

/- ## Helper lemmas on byte buffers -/

theorem u32_le_round (n : Nat) (h : n < 4294967296) :
    readU32 (u32ToLe n) = .ok n := by
  simp only [readU32, u32ToLe, leToU32]
  congr 1
  omega

theorem u32ToLe_length (n : Nat) : (u32ToLe n).length = 4 := rfl

theorem exists_four (l : Bytes) (h : l.length = 4) :
    ∃ a b c d, l = [a, b, c, d] := by
  match l, h with
  | [a, b, c, d], _ => exact ⟨a, b, c, d, rfl⟩

theorem take_of_length_le (l : Bytes) (n : Nat) (h : n ≤ l.length) :
    ((l.take n).length = n) := by
  simp [List.length_take, Nat.min_eq_left h]

theorem take4_reads (l : Bytes) (h : 4 ≤ l.length) :
    l.take 4 = [l.headD 0, (l.drop 1).headD 0, (l.drop 2).headD 0,
      (l.drop 3).headD 0] := by
  match l, h with
  | a :: b :: c :: d :: rest, _ => rfl

theorem drop_take4_reads (data : Bytes) (n : Nat) (h : n + 4 ≤ data.length) :
    (data.drop n).take 4 =
      [readByte data n, readByte data (n+1), readByte data (n+2),
        readByte data (n+3)] := by
  have hl : 4 ≤ (data.drop n).length := by rw [List.length_drop]; omega
  rw [take4_reads _ hl]
  simp only [readByte]
  rw [← List.drop_drop 1 n data, ← List.drop_drop 2 n data,
    ← List.drop_drop 3 n data]

/-- All the slices `Header::from_bytes` / `v1::parse` read, evaluated on a
buffer of the serialized shape (`R` is the trailing ciphertext, empty for a
bare header). -/
theorem headerSlices (v m t p : Nat) (S N R T : Bytes)
    (hs : S.length = 16) (hn : N.length = 24)
    (hT : T = MAGIC ++ [v] ++ u32ToLe m ++ u32ToLe t ++ u32ToLe p
      ++ S ++ N ++ R) :
    T.take 4 = MAGIC ∧ readByte T 4 = v ∧
    (T.drop 5).take 4 = u32ToLe m ∧ (T.drop 9).take 4 = u32ToLe t ∧
    (T.drop 13).take 4 = u32ToLe p ∧ (T.drop 17).take 16 = S ∧
    (T.drop 33).take 24 = N ∧ T.drop 57 = R ∧ T.length = 57 + R.length := by
  have hTr : T = MAGIC ++ ([v] ++ (u32ToLe m ++ (u32ToLe t ++ (u32ToLe p
      ++ (S ++ (N ++ R)))))) := by rw [hT]; simp [List.append_assoc]
  have h4 : T.drop 4 = [v] ++ (u32ToLe m ++ (u32ToLe t ++ (u32ToLe p
      ++ (S ++ (N ++ R))))) := by
    rw [hTr]; exact List.drop_left' rfl
  have h5 : T.drop 5 = u32ToLe m ++ (u32ToLe t ++ (u32ToLe p
      ++ (S ++ (N ++ R)))) := by
    have h := List.drop_drop 1 4 T
    rw [h4] at h
    exact h.symm
  have h9 : T.drop 9 = u32ToLe t ++ (u32ToLe p ++ (S ++ (N ++ R))) := by
    have h := List.drop_drop 4 5 T
    rw [h5, List.drop_left' (u32ToLe_length m)] at h
    exact h.symm
  have h13 : T.drop 13 = u32ToLe p ++ (S ++ (N ++ R)) := by
    have h := List.drop_drop 4 9 T
    rw [h9, List.drop_left' (u32ToLe_length t)] at h
    exact h.symm
  have h17 : T.drop 17 = S ++ (N ++ R) := by
    have h := List.drop_drop 4 13 T
    rw [h13, List.drop_left' (u32ToLe_length p)] at h
    exact h.symm
  have h33 : T.drop 33 = N ++ R := by
    have h := List.drop_drop 16 17 T
    rw [h17, List.drop_left' hs] at h
    exact h.symm
  have h57 : T.drop 57 = R := by
    have h := List.drop_drop 24 33 T
    rw [h33, List.drop_left' hn] at h
    exact h.symm
  refine ⟨?_, ?_, ?_, ?_, ?_, ?_, ?_, h57, ?_⟩
  · rw [hTr]; exact List.take_left' rfl
  · rw [readByte, h4]; rfl
  · rw [h5]; exact List.take_left' (u32ToLe_length m)
  · rw [h9]; exact List.take_left' (u32ToLe_length t)
  · rw [h13]; exact List.take_left' (u32ToLe_length p)
  · rw [h17]; exact List.take_left' hs
  · rw [h33]; exact List.take_left' hn
  · rw [hT]
    simp [MAGIC, u32ToLe, hs, hn]
    omega

theorem KdfParams.new_eta (kdf : KdfParams) (hv : kdf.validate = .ok ()) :
    KdfParams.new kdf.mem_cost_kib kdf.time_cost kdf.parallelism = .ok kdf := by
  unfold KdfParams.new
  simp only [hv]

/-- The validation conditions of `KdfParams::validate`, spelled out. -/
theorem kdf_validate_iff (q : KdfParams) :
    q.validate = .ok () ↔
      (8 ≤ q.mem_cost_kib ∧ 1 ≤ q.time_cost ∧ 1 ≤ q.parallelism ∧
        (8 * q.parallelism) % 4294967296 ≤ q.mem_cost_kib) := by
  unfold KdfParams.validate
  split_ifs with h1 h2 h3 h4 <;> simp <;> omega

/-- C5 (counterexample): the claim states `KdfParams::new(m, t, p)` succeeds
only if `m ≥ 8 × p`, yet at `(8, 1, 2^29)` the `u32` product `8 * parallelism`
wraps to `0` and the constructor succeeds although `8 < 8 × 2^29`. -/
theorem kdf_validation_overflow_cex :
    KdfParams.new 8 1 536870912 = .ok ⟨8, 1, 536870912⟩
      ∧ ¬ (8 ≥ 8 * 536870912) := by
  constructor
  · rfl
  · omega

/-- C5 (amended): `KdfParams::new(m, t, p)` succeeds iff `m ≥ 8`, `t ≥ 1`,
`p ≥ 1` and `m ≥ (8 × p) mod 2^32` (the product is computed in `u32` and can
wrap); `KdfParams::default()` is `(65536, 3, 1)` and validates. -/
theorem kdf_validation_iff (m t p : Nat) :
    ((KdfParams.new m t p).isOk = true ↔
      (8 ≤ m ∧ 1 ≤ t ∧ 1 ≤ p ∧ (8 * p) % 4294967296 ≤ m))
    ∧ KdfParams.default = ⟨65536, 3, 1⟩
    ∧ KdfParams.default.validate = .ok () := by
  refine ⟨?_, rfl, rfl⟩
  simp only [KdfParams.new]
  rcases hv : (⟨m, t, p⟩ : KdfParams).validate with e | u
  · simp only [hv, Except.isOk, Except.toBool, Bool.false_eq_true, false_iff]
    intro hc
    have := (kdf_validate_iff ⟨m, t, p⟩).mpr hc
    rw [hv] at this
    exact Except.noConfusion this
  · simp only [hv, Except.isOk, Except.toBool, true_iff]
    exact (kdf_validate_iff ⟨m, t, p⟩).mp (by cases u; exact hv)

theorem kdf_validation_iff_witness :
    (KdfParams.new 65536 3 1).isOk = true :=
  (kdf_validation_iff 65536 3 1).1.mpr (by omega)

/-- C2: for every `Header` built from valid `KdfParams` (u32 fields), a
16-byte salt and a 24-byte nonce, `Header::from_bytes(Header::to_bytes(h))`
succeeds and returns a header equal to `h`, with `bytes_consumed = 57`. -/
theorem header_round_trip (kdf : KdfParams) (salt nonce : Bytes)
    (hv : kdf.validate = .ok ()) (hm : kdf.mem_cost_kib < 4294967296)
    (ht : kdf.time_cost < 4294967296) (hp : kdf.parallelism < 4294967296)
    (hs : salt.length = 16) (hn : nonce.length = 24) :
    Header.from_bytes (Header.new kdf salt nonce).to_bytes
      = .ok (Header.new kdf salt nonce, 57) := by
  obtain ⟨t4, rb, e5, e9, e13, e17, e33, e57, elen⟩ :=
    headerSlices 1 kdf.mem_cost_kib kdf.time_cost kdf.parallelism salt nonce
      [] ((Header.new kdf salt nonce).to_bytes) hs hn
      (by simp [Header.to_bytes, Header.new])
  simp only [List.length_nil] at elen
  simp only [Header.from_bytes]
  rw [if_neg (by omega)]
  rw [if_neg (fun hc => hc t4)]
  rw [rb]
  rw [if_neg (fun hc => hc rfl)]
  rw [e5, u32_le_round _ hm, e9, u32_le_round _ ht, e13, u32_le_round _ hp]
  simp only [KdfParams.new_eta kdf hv, e17, e33]
  rfl

theorem header_round_trip_witness :
    Header.from_bytes (Header.new KdfParams.default (List.replicate 16 1)
        (List.replicate 24 2)).to_bytes
      = .ok (Header.new KdfParams.default (List.replicate 16 1)
        (List.replicate 24 2), 57) :=
  header_round_trip KdfParams.default (List.replicate 16 1)
    (List.replicate 24 2) rfl (by decide) (by decide) (by decide)
    (by simp) (by simp)

/-- `KeystoreFile` from `src/format/mod.rs`: parsed keystore file components. -/
structure KeystoreFile where
  version : Nat
  kdf : KdfParams
  salt : Bytes
  nonce : Bytes
  ciphertext : Bytes
deriving DecidableEq, Repr

/-- `KeystoreFile::new`: always the current version (1). -/
def KeystoreFile.new (kdf : KdfParams) (salt nonce ciphertext : Bytes) :
    KeystoreFile :=
  ⟨1, kdf, salt, nonce, ciphertext⟩

/-- `v1::parse` from `src/format/v1.rs`. -/
def v1.parse (data : Bytes) : Except String KeystoreFile :=
  if data.length < 57 then .error "file too short for v1"
  else
    match readU32 ((data.drop 5).take 4) with
    | .error e => .error e
    | .ok mem_cost =>
      match readU32 ((data.drop 9).take 4) with
      | .error e => .error e
      | .ok time_cost =>
        match readU32 ((data.drop 13).take 4) with
        | .error e => .error e
        | .ok parallelism =>
          let salt := (data.drop 17).take 16
          let nonce := (data.drop 33).take 24
          let ciphertext := data.drop 57
          match KdfParams.new mem_cost time_cost parallelism with
          | .error e => .error e
          | .ok kdf => .ok (KeystoreFile.new kdf salt nonce ciphertext)

/-- `v1::serialize` from `src/format/v1.rs`. -/
def v1.serialize (file : KeystoreFile) : Except String Bytes :=
  if file.version ≠ 1 then .error "wrong version for v1 serializer"
  else if file.salt.length ≠ 16 then .error "invalid salt length for v1"
  else if file.nonce.length ≠ 24 then .error "invalid nonce length for v1"
  else .ok (MAGIC ++ [1] ++ u32ToLe file.kdf.mem_cost_kib
    ++ u32ToLe file.kdf.time_cost ++ u32ToLe file.kdf.parallelism
    ++ file.salt ++ file.nonce ++ file.ciphertext)

/-- `format::parse` from `src/format/mod.rs`: version-dispatching parse. -/
def format.parse (data : Bytes) : Except String KeystoreFile :=
  if data.length < 5 then .error "file too short"
  else if data.take 4 ≠ MAGIC then .error "invalid magic"
  else
    match readByte data 4 with
    | 1 => v1.parse data
    | _ => .error "unsupported version"

/-- `format::serialize` from `src/format/mod.rs`. -/
def format.serialize (file : KeystoreFile) : Except String Bytes :=
  match file.version with
  | 1 => v1.serialize file
  | _ => .error "unsupported version"

theorem readU32_four (a b c d : Nat) :
    readU32 [a, b, c, d] = .ok (leToU32 a b c d) := rfl

/-- The KDF triple decoded from offsets 5..16, as `from_bytes` decodes it. -/
def decodedKdf (data : Bytes) : Except String KdfParams :=
  KdfParams.new
    (leToU32 (readByte data 5) (readByte data 6) (readByte data 7)
      (readByte data 8))
    (leToU32 (readByte data 9) (readByte data 10) (readByte data 11)
      (readByte data 12))
    (leToU32 (readByte data 13) (readByte data 14) (readByte data 15)
      (readByte data 16))

theorem from_bytes_eval (data : Bytes) (h : 57 ≤ data.length) :
    Header.from_bytes data =
      if data.take 4 ≠ MAGIC then .error "invalid keynest file"
      else if readByte data 4 ≠ 1 then .error "unsupported keynest version"
      else match decodedKdf data with
        | .error e => .error e
        | .ok kdf => .ok (⟨readByte data 4, kdf, (data.drop 17).take 16,
            (data.drop 33).take 24⟩, 57) := by
  simp only [Header.from_bytes, if_neg (by omega : ¬ data.length < 57),
    drop_take4_reads data 5 (by omega), drop_take4_reads data 9 (by omega),
    drop_take4_reads data 13 (by omega), readU32_four, decodedKdf]

theorem v1_parse_eval (data : Bytes) (h : 57 ≤ data.length) :
    v1.parse data =
      match decodedKdf data with
      | .error e => .error e
      | .ok kdf => .ok (KeystoreFile.new kdf ((data.drop 17).take 16)
          ((data.drop 33).take 24) (data.drop 57)) := by
  simp only [v1.parse, if_neg (by omega : ¬ data.length < 57),
    drop_take4_reads data 5 (by omega), drop_take4_reads data 9 (by omega),
    drop_take4_reads data 13 (by omega), readU32_four, decodedKdf]

/-- The spec's four header-parse success conditions (§4.3), stated from the
spec's words over raw buffer offsets. -/
def specHeaderOk (data : Bytes) : Prop :=
  57 ≤ data.length ∧ data.take 4 = MAGIC ∧ readByte data 4 = 1 ∧
    (decodedKdf data).isOk = true

instance (data : Bytes) : Decidable (specHeaderOk data) := by
  unfold specHeaderOk
  infer_instance

theorem from_bytes_isOk_iff (data : Bytes) :
    (Header.from_bytes data).isOk = true ↔ specHeaderOk data := by
  by_cases hlen : data.length < 57
  · simp only [Header.from_bytes, if_pos hlen, Except.isOk, Except.toBool,
      Bool.false_eq_true, false_iff]
    intro hc
    exact absurd hc.1 (by omega)
  · rw [from_bytes_eval data (by omega)]
    by_cases hm : data.take 4 = MAGIC
    · by_cases hv : readByte data 4 = 1
      · rw [if_neg (fun hc => hc hm), if_neg (fun hc => hc hv)]
        rcases hk : decodedKdf data with e | kdf
        · simp [specHeaderOk, hk, hm, hv, Except.isOk, Except.toBool]
        · simp [specHeaderOk, hk, hm, hv, Except.isOk, Except.toBool]
          omega
      · rw [if_neg (fun hc => hc hm), if_pos hv]
        simp [specHeaderOk, hv, Except.isOk, Except.toBool]
    · rw [if_pos hm]
      simp [specHeaderOk, hm, Except.isOk, Except.toBool]

theorem format_parse_isOk_iff (data : Bytes) :
    (format.parse data).isOk = true ↔ specHeaderOk data := by
  by_cases hlen : data.length < 57
  · have hff : (format.parse data).isOk = false := by
      unfold format.parse
      split
      · rfl
      · split
        · rfl
        · split
          · unfold v1.parse
            rw [if_pos hlen]
            rfl
          · rfl
    rw [hff]
    simp only [Bool.false_eq_true, false_iff]
    intro hc
    exact absurd hc.1 (by omega)
  · unfold format.parse
    rw [if_neg (by omega : ¬ data.length < 5)]
    by_cases hm : data.take 4 = MAGIC
    · rw [if_neg (fun hc => hc hm)]
      by_cases hv : readByte data 4 = 1
      · rw [hv, v1_parse_eval data (by omega)]
        rcases hk : decodedKdf data with e | kdf
        · simp [specHeaderOk, hk, hm, hv, Except.isOk, Except.toBool]
        · simp [specHeaderOk, hk, hm, hv, Except.isOk, Except.toBool]
          omega
      · have : (match readByte data 4 with
            | 1 => v1.parse data
            | _ => (.error "unsupported version" : Except String KeystoreFile))
            = .error "unsupported version" := by
          rcases hb : readByte data 4 with _ | b
          · rfl
          · rcases b with _ | b
            · exact absurd hb hv
            · rfl
        rw [this]
        simp [specHeaderOk, hv, Except.isOk, Except.toBool]
    · rw [if_pos hm]
      simp [specHeaderOk, hm, Except.isOk, Except.toBool]

theorem headD_take (l : Bytes) (k : Nat) :
    (l.take (k+1)).headD 0 = l.headD 0 := by
  cases l <;> rfl

theorem readByte_take57 (data : Bytes) (i k : Nat) (hik : i + k + 1 = 57) :
    readByte (data.take 57) i = readByte data i := by
  unfold readByte
  rw [List.drop_take 57 i data, show 57 - i = k + 1 from by omega]
  exact headD_take _ k

theorem slice_take57 (data : Bytes) (o a : Nat) (ho : o + a ≤ 57) :
    ((data.take 57).drop o).take a = (data.drop o).take a := by
  rw [List.drop_take 57 o data, List.take_take a (57 - o) (data.drop o),
    show min a (57 - o) = a from by omega]

theorem from_bytes_take57 (data : Bytes) :
    Header.from_bytes data = Header.from_bytes (data.take 57) := by
  by_cases hlen : data.length < 57
  · rw [List.take_of_length_le (by omega)]
  · have h57 : (data.take 57).length = 57 := by rw [List.length_take]; omega
    rw [from_bytes_eval data (by omega), from_bytes_eval (data.take 57)
      (by omega)]
    rw [List.take_take 4 57 data, show min 4 57 = 4 from rfl]
    rw [readByte_take57 data 4 52 rfl]
    unfold decodedKdf
    rw [readByte_take57 data 5 51 rfl, readByte_take57 data 6 50 rfl,
      readByte_take57 data 7 49 rfl, readByte_take57 data 8 48 rfl,
      readByte_take57 data 9 47 rfl, readByte_take57 data 10 46 rfl,
      readByte_take57 data 11 45 rfl, readByte_take57 data 12 44 rfl,
      readByte_take57 data 13 43 rfl, readByte_take57 data 14 42 rfl,
      readByte_take57 data 15 41 rfl, readByte_take57 data 16 40 rfl,
      slice_take57 data 17 16 (by omega), slice_take57 data 33 24 (by omega)]

/-- C3: header parsing fails exactly when the buffer is shorter than 57 bytes,
the magic is not `KNST`, the version byte is not 1, or the decoded KDF triple
fails validation — both for `Header::from_bytes` and for the
version-dispatching `format::parse`; moreover `from_bytes` reads only the
first 57 bytes of the buffer. -/
theorem header_parse_failure_conditions (data : Bytes) :
    ((Header.from_bytes data).isOk = true ↔ specHeaderOk data)
    ∧ ((format.parse data).isOk = true ↔ specHeaderOk data)
    ∧ Header.from_bytes data = Header.from_bytes (data.take 57) :=
  ⟨from_bytes_isOk_iff data, format_parse_isOk_iff data,
    from_bytes_take57 data⟩

theorem header_parse_failure_conditions_witness :
    ((Header.from_bytes [1, 2, 3]).isOk = true ↔ specHeaderOk [1, 2, 3])
    ∧ ((format.parse [1, 2, 3]).isOk = true ↔ specHeaderOk [1, 2, 3])
    ∧ Header.from_bytes [1, 2, 3]
        = Header.from_bytes (List.take 57 [1, 2, 3]) :=
  header_parse_failure_conditions [1, 2, 3]

/-- C8: `Header::to_bytes` emits exactly 57 bytes: `"KNST"`, version 1, the
three KDF fields as little-endian u32, the 16-byte salt and the 24-byte
nonce, at the §6 offsets; and `v1::serialize` emits that same 57-byte prefix
followed by the ciphertext. -/
theorem header_wire_layout (h : Header) (hv : h.version = 1)
    (hs : h.salt.length = 16) (hn : h.nonce.length = 24) :
    h.to_bytes.length = 57
    ∧ h.to_bytes.take 4 = [75, 78, 83, 84]
    ∧ readByte h.to_bytes 4 = 1
    ∧ (h.to_bytes.drop 5).take 4 = [h.kdf.mem_cost_kib % 256,
        h.kdf.mem_cost_kib / 256 % 256, h.kdf.mem_cost_kib / 65536 % 256,
        h.kdf.mem_cost_kib / 16777216 % 256]
    ∧ (h.to_bytes.drop 9).take 4 = [h.kdf.time_cost % 256,
        h.kdf.time_cost / 256 % 256, h.kdf.time_cost / 65536 % 256,
        h.kdf.time_cost / 16777216 % 256]
    ∧ (h.to_bytes.drop 13).take 4 = [h.kdf.parallelism % 256,
        h.kdf.parallelism / 256 % 256, h.kdf.parallelism / 65536 % 256,
        h.kdf.parallelism / 16777216 % 256]
    ∧ (h.to_bytes.drop 17).take 16 = h.salt
    ∧ (h.to_bytes.drop 33).take 24 = h.nonce
    ∧ (∀ kf : KeystoreFile, kf.version = 1 → kf.salt.length = 16 →
        kf.nonce.length = 24 →
        v1.serialize kf
          = .ok ((Header.new kf.kdf kf.salt kf.nonce).to_bytes
            ++ kf.ciphertext)) := by
  obtain ⟨t4, rb, e5, e9, e13, e17, e33, _, elen⟩ :=
    headerSlices h.version h.kdf.mem_cost_kib h.kdf.time_cost
      h.kdf.parallelism h.salt h.nonce [] h.to_bytes hs hn
      (by simp [Header.to_bytes])
  simp only [List.length_nil] at elen
  refine ⟨by omega, ?_, by rw [rb, hv], e5, e9, e13, e17, e33, ?_⟩
  · rw [t4]; rfl
  · intro kf h1 h2 h3
    unfold v1.serialize
    rw [if_neg (fun hc => hc h1), if_neg (fun hc => hc h2),
      if_neg (fun hc => hc h3)]
    simp [Header.to_bytes, Header.new, List.append_assoc]

theorem header_wire_layout_witness :
    (Header.new KdfParams.default (List.replicate 16 7)
      (List.replicate 24 9)).to_bytes.length = 57 :=
  (header_wire_layout
    (Header.new KdfParams.default (List.replicate 16 7) (List.replicate 24 9))
    rfl rfl rfl).1

/-- `SecretEntry` from `src/store.rs`: key, value and last-update timestamp. -/
structure SecretEntry where
  key : String
  value : String
  updated : String
deriving DecidableEq, Repr

/-- `SecretEntry::new` — the timestamp (`Local::now().to_string()`) enters as
an explicit parameter. -/
def SecretEntry.new (key value now : String) : SecretEntry :=
  ⟨key, value, now⟩

/-- `SecretEntry::update_value`. -/
def SecretEntry.update_value (e : SecretEntry) (new_value now : String) :
    SecretEntry :=
  { e with value := new_value, updated := now }

/-- `Store` from `src/store.rs`.  The `HashMap<String, SecretEntry>` is
modelled as an association list (reachable stores have unique keys). -/
structure Store where
  secrets : List (String × SecretEntry)
  creation_date : String
deriving DecidableEq, Repr

/-- `StoreError` from `src/error.rs`. -/
inductive StoreError where
  | KeyAlreadyExists (k : String)
  | KeyNotFound (k : String)
deriving DecidableEq, Repr

/-- `Store::new` — the creation timestamp enters as a parameter. -/
def Store.new (now : String) : Store :=
  ⟨[], now⟩

/-- `HashMap::contains_key`. -/
def containsKey (l : List (String × SecretEntry)) (k : String) : Bool :=
  l.any (fun p => p.1 == k)

/-- `Store::set`: fails if the key is present, otherwise inserts. -/
def Store.set (s : Store) (k v now : String) : Except StoreError Store :=
  if containsKey s.secrets k then .error (.KeyAlreadyExists k)
  else .ok { s with secrets := (k, SecretEntry.new k v now) :: s.secrets }

/-- `Store::get`: pure lookup of the entry's value. -/
def Store.get (s : Store) (k : String) : Option String :=
  (s.secrets.find? (fun p => p.1 == k)).map (fun p => p.2.value)

/-- `Store::remove`: fails if the key is absent, otherwise deletes it. -/
def Store.remove (s : Store) (k : String) : Except StoreError Store :=
  if containsKey s.secrets k then
    .ok { s with secrets := s.secrets.filter (fun p => !(p.1 == k)) }
  else .error (.KeyNotFound k)

/-- `Store::update`: fails if the key is absent, otherwise replaces the value
and refreshes the timestamp in place. -/
def Store.update (s : Store) (k v now : String) : Except StoreError Store :=
  if containsKey s.secrets k then
    let f := fun (p : String × SecretEntry) =>
      if p.1 == k then (p.1, p.2.update_value v now) else p
    .ok { s with secrets := s.secrets.map f }
  else .error (.KeyNotFound k)

/-- `Store::len`. -/
def Store.len (s : Store) : Nat :=
  s.secrets.length

theorem find_filter_ne (l : List (String × SecretEntry)) (k : String) :
    (l.filter (fun p => !(p.1 == k))).find? (fun p => p.1 == k) = none := by
  induction l with
  | nil => rfl
  | cons hd tl ih =>
    by_cases hk : hd.1 == k
    · simp [List.filter, hk, ih]
    · simp only [List.filter]
      rw [show (!(hd.1 == k)) = true from by simp_all]
      rw [List.find?]
      simp only [hk, ih]

theorem containsKey_iff_get (s : Store) (k : String) :
    containsKey s.secrets k = true ↔ s.get k ≠ none := by
  unfold containsKey Store.get
  induction s.secrets with
  | nil => simp
  | cons hd tl ih =>
    by_cases hk : hd.1 == k
    · simp [List.any, hk, List.find?]
    · simp only [List.any, hk, Bool.false_or, List.find?]
      exact ih

/-- C6: `set(k,v)` fails with `KeyAlreadyExists` exactly when `k` is present
(and otherwise inserts an entry whose value `get` returns); `update` and
`remove` fail with `KeyNotFound` exactly when `k` is absent; after a
successful `remove(k)`, `get(k)` returns `None`. -/
theorem store_crud (s : Store) (k v now : String) :
    (containsKey s.secrets k = true ↔ s.get k ≠ none)
    ∧ (s.set k v now = .error (.KeyAlreadyExists k)
        ↔ containsKey s.secrets k = true)
    ∧ (containsKey s.secrets k = false →
        ∃ s2, s.set k v now = .ok s2 ∧ s2.get k = some v)
    ∧ (s.update k v now = .error (.KeyNotFound k)
        ↔ containsKey s.secrets k = false)
    ∧ (s.remove k = .error (.KeyNotFound k)
        ↔ containsKey s.secrets k = false)
    ∧ (∀ s2, s.remove k = .ok s2 → s2.get k = none) := by
  refine ⟨containsKey_iff_get s k, ?_, ?_, ?_, ?_, ?_⟩
  · unfold Store.set
    by_cases hc : containsKey s.secrets k <;> simp [hc]
  · intro hc
    refine ⟨{ s with secrets := (k, SecretEntry.new k v now) :: s.secrets },
      ?_, ?_⟩
    · unfold Store.set
      rw [if_neg (by simp [hc])]
    · simp [Store.get, List.find?, SecretEntry.new]
  · unfold Store.update
    by_cases hc : containsKey s.secrets k <;> simp [hc]
  · unfold Store.remove
    by_cases hc : containsKey s.secrets k <;> simp [hc]
  · intro s2 h
    unfold Store.remove at h
    by_cases hc : containsKey s.secrets k
    · rw [if_pos hc] at h
      injection h with h2
      rw [← h2]
      simp [Store.get, find_filter_ne]
    · rw [if_neg hc] at h
      exact Except.noConfusion h

theorem store_crud_witness :
    (Store.mk [("A", SecretEntry.new "A" "B" "t1")] "t0").set "A" "C" "t2"
      = .error (.KeyAlreadyExists "A") :=
  (store_crud (Store.mk [("A", SecretEntry.new "A" "B" "t1")] "t0")
    "A" "C" "t2").2.1.mpr rfl

/-- The slice of the filesystem that `Storage::save` touches: the bytes at
the target path and at the (single) temp path this call generates. -/
structure FsState where
  target : Option Bytes
  tmp : Option Bytes
deriving DecidableEq, Repr

/-- `Path::file_name()` of the storage path — `None` for a root path or a
path ending in `..`; the only part of the path the save protocol inspects. -/
structure KPath where
  fileName : Option String
deriving DecidableEq, Repr

/-- Outcome of a fallible, possibly panicking operation, together with the
filesystem state it leaves behind. -/
inductive Res (α : Type) where
  | panicked
  | error (msg : String) (fs : FsState)
  | ok (v : α) (fs : FsState)
deriving DecidableEq, Repr

/-- `Storage::random_tmp_path` from `src/storage.rs`: builds
`filename.tmp.<randomhex>`; the `unwrap` on `file_name()` panics when the
path has no final component (`none` models the panic).  The random suffix
enters as a parameter. -/
def Storage.random_tmp_path (path : KPath) (rand : String) : Option String :=
  path.fileName.map (fun n => n ++ ".tmp." ++ rand)

/-- `Storage::save` from `src/storage.rs`: create the temp file with
create-new semantics (fails if it exists), write and sync, atomically
replace the target, sync the directory.  `replaceFails` injects a failure of
the `atomic_replace` step; on that failure the temp file is removed and the
error propagated. -/
def Storage.save (path : KPath) (rand : String) (data : Bytes)
    (replaceFails : Bool) (fs : FsState) : Res Unit :=
  match Storage.random_tmp_path path rand with
  | none => .panicked
  | some _ =>
    if fs.tmp.isSome then .error "failed to create temporary file" fs
    else if replaceFails then
      .error "atomic replace failed" ⟨fs.target, none⟩
    else .ok () ⟨some data, none⟩

/-- `Storage::load`: whole-file read. -/
def Storage.load (fs : FsState) : Except String Bytes :=
  match fs.target with
  | some d => .ok d
  | none => .error "file not found"

/-- `Storage::exists`. -/
def Storage.exists (fs : FsState) : Bool :=
  fs.target.isSome

/-- C4: for every prior target-file state and every data buffer, if the
atomic-replace step of `Storage::save` fails, then save removes the
temporary file, propagates the error, and the target file's bytes are
exactly what they were before the call. -/
theorem save_replace_failure_atomicity (path : KPath) (rand : String)
    (data : Bytes) (fs : FsState) (n : String)
    (hp : path.fileName = some n) (ht : fs.tmp = none) :
    Storage.save path rand data true fs
      = .error "atomic replace failed" ⟨fs.target, none⟩ := by
  unfold Storage.save Storage.random_tmp_path
  rw [hp]
  simp [ht]

theorem save_replace_failure_atomicity_witness :
    Storage.save ⟨some "db"⟩ "r" [5] true ⟨some [1, 2], none⟩
      = .error "atomic replace failed" ⟨some [1, 2], none⟩ :=
  save_replace_failure_atomicity ⟨some "db"⟩ "r" [5] ⟨some [1, 2], none⟩
    "db" rfl rfl

/-- C10: when the target path has a final file-name component, `Storage::save`
never panics (it returns a `Result`); when the path has none, `save` panics
via the `unwrap` inside `random_tmp_path`. -/
theorem save_panic_behavior (path : KPath) (rand : String) (data : Bytes)
    (replaceFails : Bool) (fs : FsState) :
    (∀ n, path.fileName = some n →
      Storage.save path rand data replaceFails fs ≠ .panicked)
    ∧ (path.fileName = none →
      Storage.save path rand data replaceFails fs = .panicked) := by
  constructor
  · intro n hp
    unfold Storage.save Storage.random_tmp_path
    rw [hp]
    by_cases h1 : fs.tmp.isSome <;> by_cases h2 : replaceFails <;>
      simp [h1, h2]
  · intro hp
    unfold Storage.save Storage.random_tmp_path
    rw [hp]
    rfl

theorem save_panic_behavior_witness :
    Storage.save ⟨some "db"⟩ "r" [] false ⟨none, none⟩ ≠ .panicked
    ∧ Storage.save ⟨none⟩ "r" [] false ⟨none, none⟩ = .panicked :=
  ⟨(save_panic_behavior ⟨some "db"⟩ "r" [] false ⟨none, none⟩).1 "db" rfl,
    (save_panic_behavior ⟨none⟩ "r" [] false ⟨none, none⟩).2 rfl⟩

/-- Modelled from the spec: the XChaCha20-Poly1305 primitive of the
`chacha20poly1305` crate is external to this repository.  §4.2 contracts it
as an AEAD: decrypt with the same key and nonce inverts encrypt, and a
16-byte authentication tag over the ciphertext is verified on open.  The
keystream is a concrete stand-in with exactly that interface. -/
def keystream (key nonce : Bytes) (n : Nat) : Bytes :=
  (List.range n).map (fun i => (key.sum + 2 * nonce.sum + 3 * i) % 256)

/-- Modelled from the spec: the 16-byte authentication tag over the body. -/
def macTag (key nonce body : Bytes) : Bytes :=
  (List.range 16).map
    (fun i => (key.sum + nonce.sum + body.sum + body.length + i) % 256)

/-- Modelled from the spec: AEAD seal — xor-keystream body, then tag. -/
def cipherSeal (key nonce pt : Bytes) : Bytes :=
  let body := List.zipWith Nat.xor pt (keystream key nonce pt.length)
  body ++ macTag key nonce body

/-- Modelled from the spec: AEAD open — split off the 16-byte tag, verify
it, un-xor the body; every failure is the single undifferentiated error. -/
def cipherOpen (key nonce ct : Bytes) : Except String Bytes :=
  if ct.length < 16 then .error "Invalid password or corrupted data"
  else
    let body := ct.take (ct.length - 16)
    let tag := ct.drop (ct.length - 16)
    if tag = macTag key nonce body then
      .ok (List.zipWith Nat.xor body (keystream key nonce body.length))
    else .error "Invalid password or corrupted data"

/-- `encrypt` from `src/crypto/aead.rs`: the fresh random nonce enters as a
parameter and is returned alongside the ciphertext. -/
def encrypt (key pt nonce : Bytes) : Bytes × Bytes :=
  (cipherSeal key nonce pt, nonce)

/-- `decrypt` from `src/crypto/aead.rs`. -/
def decrypt (key nonce ct : Bytes) : Except String Bytes :=
  cipherOpen key nonce ct

theorem zipWith_xor_cancel (l : Bytes) :
    ∀ m : Bytes, l.length ≤ m.length →
      List.zipWith Nat.xor (List.zipWith Nat.xor l m) m = l := by
  induction l with
  | nil => intro m _; rfl
  | cons a l ih =>
    intro m hm
    cases m with
    | nil => simp at hm
    | cons b m =>
      simp only [List.zipWith]
      congr 1
      · exact Nat.xor_cancel_right b a
      · exact ih m (by simpa using hm)

theorem keystream_length (key nonce : Bytes) (n : Nat) :
    (keystream key nonce n).length = n := by
  simp [keystream]

theorem macTag_length (key nonce body : Bytes) :
    (macTag key nonce body).length = 16 := by
  simp [macTag]

theorem cipherOpen_append (key nonce B : Bytes) :
    cipherOpen key nonce (B ++ macTag key nonce B)
      = .ok (List.zipWith Nat.xor B (keystream key nonce B.length)) := by
  simp only [cipherOpen]
  have hlen : (B ++ macTag key nonce B).length = B.length + 16 := by
    rw [List.length_append, macTag_length]
  rw [hlen, show B.length + 16 - 16 = B.length from by omega]
  rw [if_neg (by omega)]
  rw [List.take_left, List.drop_left]
  rw [if_pos rfl]

theorem cipher_round_trip (key nonce pt : Bytes) :
    cipherOpen key nonce (cipherSeal key nonce pt) = .ok pt := by
  have hblen : (List.zipWith Nat.xor pt (keystream key nonce
      pt.length)).length = pt.length := by
    rw [List.length_zipWith, keystream_length]
    omega
  show cipherOpen key nonce
    (List.zipWith Nat.xor pt (keystream key nonce pt.length)
      ++ macTag key nonce (List.zipWith Nat.xor pt (keystream key nonce
        pt.length))) = .ok pt
  rw [cipherOpen_append]
  congr 1
  rw [hblen]
  exact zipWith_xor_cancel pt (keystream key nonce pt.length)
    (by rw [keystream_length])

/-- C9: for every 32-byte key and every plaintext byte string, including the
empty one, if `encrypt(key, plaintext)` returns `(ciphertext, nonce)`, then
`decrypt(key, nonce, ciphertext)` succeeds and returns the plaintext. -/
theorem aead_round_trip (key pt nonce : Bytes) (hk : key.length = 32) :
    decrypt key (encrypt key pt nonce).2 (encrypt key pt nonce).1
      = .ok pt :=
  cipher_round_trip key nonce pt

theorem aead_round_trip_witness :
    decrypt (List.replicate 32 1)
      (encrypt (List.replicate 32 1) [] (List.replicate 24 2)).2
      (encrypt (List.replicate 32 1) [] (List.replicate 24 2)).1
      = .ok [] :=
  aead_round_trip (List.replicate 32 1) [] (List.replicate 24 2) rfl

/-- Modelled from the spec: `serde_json` serialization of the `Store` is an
external collaborator; §1/§6 contract it only as a lossless round-tripping
serializer of the Store data model, treated as an opaque byte blob.  The
encoding below is a concrete length-prefixed stand-in with exactly that
property (a unary length followed by a terminator byte). -/
def encNat (n : Nat) : Bytes :=
  List.replicate n 1 ++ [0]

/-- Inverse of `encNat` on a prefix. -/
def decNat : Bytes → Option (Nat × Bytes)
  | [] => none
  | b :: rest =>
    if b = 0 then some (0, rest)
    else (decNat rest).map (fun p => (p.1 + 1, p.2))

/-- Length-prefixed string encoding (part of the serializer model). -/
def encStr (s : String) : Bytes :=
  encNat s.data.length ++ s.data.map Char.toNat

/-- Inverse of `encStr` on a prefix. -/
def decStr (b : Bytes) : Option (String × Bytes) :=
  match decNat b with
  | none => none
  | some (n, rest) =>
    if n ≤ rest.length then
      some (String.mk ((rest.take n).map Char.ofNat), rest.drop n)
    else none

/-- Serialized `SecretEntry` (part of the serializer model). -/
def encEntry (e : SecretEntry) : Bytes :=
  encStr e.key ++ encStr e.value ++ encStr e.updated

/-- Inverse of `encEntry` on a prefix. -/
def decEntry (b : Bytes) : Option (SecretEntry × Bytes) :=
  match decStr b with
  | none => none
  | some (k, b1) =>
    match decStr b1 with
    | none => none
    | some (v, b2) =>
      match decStr b2 with
      | none => none
      | some (u, b3) => some (⟨k, v, u⟩, b3)

/-- Serialized secret map (part of the serializer model). -/
def encPairs : List (String × SecretEntry) → Bytes
  | [] => []
  | (k, e) :: rest => encStr k ++ (encEntry e ++ encPairs rest)

/-- Inverse of `encPairs` on a prefix, given the number of pairs. -/
def decPairs : Nat → Bytes → Option (List (String × SecretEntry) × Bytes)
  | 0, b => some ([], b)
  | n+1, b =>
    match decStr b with
    | none => none
    | some (k, b1) =>
      match decEntry b1 with
      | none => none
      | some (e, b2) =>
        match decPairs n b2 with
        | none => none
        | some (rest, b3) => some ((k, e) :: rest, b3)

/-- `serde_json::to_vec(&store)` (serializer model). -/
def encodeStore (s : Store) : Bytes :=
  encNat s.secrets.length ++ (encPairs s.secrets ++ encStr s.creation_date)

/-- `serde_json::from_slice` into a `Store` (serializer model); rejects
trailing bytes. -/
def decodeStore (b : Bytes) : Option Store :=
  match decNat b with
  | none => none
  | some (n, b1) =>
    match decPairs n b1 with
    | none => none
    | some (ps, b2) =>
      match decStr b2 with
      | none => none
      | some (cd, b3) =>
        if b3.isEmpty then some ⟨ps, cd⟩ else none

theorem decNat_enc (n : Nat) (t : Bytes) :
    decNat (encNat n ++ t) = some (n, t) := by
  induction n with
  | zero => rfl
  | succ n ih =>
    have h1 : encNat (n+1) ++ t = 1 :: (encNat n ++ t) := by
      simp [encNat, List.replicate_succ, List.append_assoc]
    rw [h1]
    simp [decNat, ih]

theorem decStr_enc (s : String) (t : Bytes) :
    decStr (encStr s ++ t) = some (s, t) := by
  have h1 : encStr s ++ t
      = encNat s.data.length ++ (s.data.map Char.toNat ++ t) := by
    simp [encStr, List.append_assoc]
  rw [h1]
  unfold decStr
  simp only [decNat_enc]
  rw [if_pos (by simp)]
  rw [List.take_left' (by simp), List.drop_left' (by simp)]
  have h2 : ∀ l : List Char, (l.map Char.toNat).map Char.ofNat = l := by
    intro l
    induction l with
    | nil => rfl
    | cons c cs ih => simp [ih, Char.ofNat_toNat]
  rw [h2]

theorem decEntry_enc (e : SecretEntry) (t : Bytes) :
    decEntry (encEntry e ++ t) = some (e, t) := by
  have h1 : encEntry e ++ t
      = encStr e.key ++ (encStr e.value ++ (encStr e.updated ++ t)) := by
    simp [encEntry, List.append_assoc]
  rw [h1]
  unfold decEntry
  simp only [decStr_enc]

theorem decPairs_enc (l : List (String × SecretEntry)) :
    ∀ t, decPairs l.length (encPairs l ++ t) = some (l, t) := by
  induction l with
  | nil => intro t; rfl
  | cons p rest ih =>
    intro t
    obtain ⟨k, e⟩ := p
    have h1 : encPairs ((k, e) :: rest) ++ t
        = encStr k ++ (encEntry e ++ (encPairs rest ++ t)) := by
      simp [encPairs, List.append_assoc]
    rw [List.length_cons, h1]
    unfold decPairs
    simp only [decStr_enc, decEntry_enc, ih]

theorem decodeStore_enc (s : Store) : decodeStore (encodeStore s) = some s := by
  rw [show encodeStore s = encNat s.secrets.length ++ (encPairs s.secrets
    ++ (encStr s.creation_date ++ [])) from by
      simp [encodeStore, List.append_assoc]]
  unfold decodeStore
  simp only [decNat_enc, decPairs_enc s.secrets, decStr_enc]
  rfl

/-- Modelled from the spec: Argon2id (the `argon2` crate) is external to this
repository; §4.1 contracts `derive_key` as a deterministic function of
`(password, salt, params)` producing a 32-byte key.  The hash is a concrete
deterministic stand-in. -/
def argon2Hash (pw : String) (salt : Bytes) (kdf : KdfParams) : Bytes :=
  (List.range 32).map (fun i =>
    ((pw.data.map Char.toNat).sum + salt.sum + kdf.mem_cost_kib
      + 2 * kdf.time_cost + 3 * kdf.parallelism + 5 * i) % 256)

/-- `derive_key` from `src/crypto/kdf.rs`: validate the params, then run the
password hash; the primitive rejects salts shorter than 8 bytes
(`DerivationFailed`). -/
def derive_key (pw : String) (salt : Bytes) (kdf : KdfParams) :
    Except String Bytes :=
  match kdf.validate with
  | .error e => .error e
  | .ok _ =>
    if salt.length < 8 then .error "argon2 key derivation failed"
    else .ok (argon2Hash pw salt kdf)

/-- `Keynest` session state from `src/lib.rs`: decrypted store, derived key,
current keystore file (header fields + last ciphertext). -/
structure Keynest where
  store : Store
  key : Bytes
  keystore_file : KeystoreFile
deriving DecidableEq, Repr

/-- `Keynest::init_with_storage_and_kdf` from `src/lib.rs`.  The random salt
and nonce, the creation timestamp, the storage path and the temp-name
randomness enter as parameters; the filesystem slice is threaded
explicitly. -/
def Keynest.init_with_storage_and_kdf (pw : String) (kdf : KdfParams)
    (salt nonce : Bytes) (now : String) (path : KPath) (rand : String)
    (replaceFails : Bool) (fs : FsState) : Res Keynest :=
  if Storage.exists fs then .error "keynest store already exists" fs
  else
    let store := Store.new now
    match derive_key pw salt kdf with
    | .error e => .error e fs
    | .ok key =>
      let plaintext := encodeStore store
      let ec := encrypt key plaintext nonce
      let kf := KeystoreFile.new kdf salt ec.2 ec.1
      match format.serialize kf with
      | .error e => .error e fs
      | .ok file =>
        match Storage.save path rand file replaceFails fs with
        | .panicked => .panicked
        | .error e fs2 => .error e fs2
        | .ok _ fs2 => .ok ⟨store, key, kf⟩ fs2

/-- `Keynest::open_with_storage` from `src/lib.rs`: load, parse, derive the
key from the stored salt and params, decrypt, deserialize. -/
def Keynest.open_with_storage (pw : String) (fs : FsState) : Res Keynest :=
  if !Storage.exists fs then .error "keynest store does not exist" fs
  else
    match Storage.load fs with
    | .error e => .error e fs
    | .ok data =>
      match format.parse data with
      | .error e => .error e fs
      | .ok kf =>
        match derive_key pw kf.salt kf.kdf with
        | .error e => .error e fs
        | .ok key =>
          match decrypt key kf.nonce kf.ciphertext with
          | .error e => .error e fs
          | .ok plaintext =>
            match decodeStore plaintext with
            | none => .error "failed to deserialize keystore" fs
            | some store => .ok ⟨store, key, kf⟩ fs

/-- `Keynest::set`: delegates to the store. -/
def Keynest.set (kn : Keynest) (k v now : String) :
    Except StoreError Keynest :=
  match kn.store.set k v now with
  | .error e => .error e
  | .ok s => .ok { kn with store := s }

/-- `Keynest::get`: delegates to the store. -/
def Keynest.get (kn : Keynest) (k : String) : Option String :=
  kn.store.get k

/-- `Keynest::save` from `src/lib.rs`: re-encrypt the whole current store
with the existing key and a fresh nonce, rebuild the keystore file with the
existing salt and KDF params, serialize, atomically save. -/
def Keynest.save (kn : Keynest) (nonce : Bytes) (path : KPath)
    (rand : String) (replaceFails : Bool) (fs : FsState) : Res Keynest :=
  let plaintext := encodeStore kn.store
  let ec := encrypt kn.key plaintext nonce
  let kf := KeystoreFile.new kn.keystore_file.kdf kn.keystore_file.salt
    ec.2 ec.1
  match format.serialize kf with
  | .error e => .error e fs
  | .ok file =>
    match Storage.save path rand file replaceFails fs with
    | .panicked => .panicked
    | .error e fs2 => .error e fs2
    | .ok _ fs2 => .ok { kn with keystore_file := kf } fs2

theorem serialize_eval (kf : KeystoreFile) (hv : kf.version = 1)
    (hs : kf.salt.length = 16) (hn : kf.nonce.length = 24) :
    format.serialize kf = .ok (MAGIC ++ [1] ++ u32ToLe kf.kdf.mem_cost_kib
      ++ u32ToLe kf.kdf.time_cost ++ u32ToLe kf.kdf.parallelism
      ++ kf.salt ++ kf.nonce ++ kf.ciphertext) := by
  unfold format.serialize
  simp only [hv]
  unfold v1.serialize
  rw [hv]
  rw [if_neg (fun hc => hc rfl), if_neg (fun hc => hc hs),
    if_neg (fun hc => hc hn)]

theorem parse_serialize (kf : KeystoreFile) (hv : kf.version = 1)
    (hva : kf.kdf.validate = .ok ()) (hm : kf.kdf.mem_cost_kib < 4294967296)
    (ht : kf.kdf.time_cost < 4294967296)
    (hp : kf.kdf.parallelism < 4294967296)
    (hs : kf.salt.length = 16) (hn : kf.nonce.length = 24) :
    ∃ file, format.serialize kf = .ok file ∧ format.parse file = .ok kf
      ∧ file.length = 57 + kf.ciphertext.length := by
  refine ⟨MAGIC ++ [1] ++ u32ToLe kf.kdf.mem_cost_kib
    ++ u32ToLe kf.kdf.time_cost ++ u32ToLe kf.kdf.parallelism
    ++ kf.salt ++ kf.nonce ++ kf.ciphertext,
    serialize_eval kf hv hs hn, ?_, ?_⟩
  · obtain ⟨t4, rb, e5, e9, e13, e17, e33, e57, elen⟩ :=
      headerSlices 1 kf.kdf.mem_cost_kib kf.kdf.time_cost
        kf.kdf.parallelism kf.salt kf.nonce kf.ciphertext _ hs hn rfl
    unfold format.parse
    rw [if_neg (by omega), if_neg (fun hc => hc t4), rb]
    show v1.parse _ = _
    unfold v1.parse
    rw [if_neg (by omega)]
    rw [e5, u32_le_round _ hm, e9, u32_le_round _ ht, e13, u32_le_round _ hp]
    simp only [KdfParams.new_eta kf.kdf hva, e17, e33, e57]
    unfold KeystoreFile.new
    rw [show (⟨1, kf.kdf, kf.salt, kf.nonce, kf.ciphertext⟩ : KeystoreFile)
      = kf from by rw [← hv]]
  · obtain ⟨_, _, _, _, _, _, _, _, elen⟩ :=
      headerSlices 1 kf.kdf.mem_cost_kib kf.kdf.time_cost
        kf.kdf.parallelism kf.salt kf.nonce kf.ciphertext _ hs hn rfl
    exact elen

theorem storage_save_ok (fn rand : String) (data : Bytes) (fs : FsState)
    (ht : fs.tmp = none) :
    Storage.save ⟨some fn⟩ rand data false fs = .ok () ⟨some data, none⟩ := by
  unfold Storage.save Storage.random_tmp_path
  simp [ht]

/-- C7: a successful `save()` leaves the in-memory store (secret map and
creation date), the key, the salt and the KDF parameters unchanged; only
the nonce and the ciphertext of the keystore file are replaced, and the
file on disk becomes their new serialization. -/
theorem save_frame (kn : Keynest) (nonce : Bytes) (path : KPath)
    (rand : String) (replaceFails : Bool) (fs : FsState) (kn2 : Keynest)
    (fs2 : FsState)
    (h : kn.save nonce path rand replaceFails fs = .ok kn2 fs2) :
    kn2.store = kn.store
    ∧ kn2.store.creation_date = kn.store.creation_date
    ∧ kn2.key = kn.key
    ∧ kn2.keystore_file.salt = kn.keystore_file.salt
    ∧ kn2.keystore_file.kdf = kn.keystore_file.kdf
    ∧ kn2.keystore_file.nonce = nonce
    ∧ kn2.keystore_file.ciphertext
        = cipherSeal kn.key nonce (encodeStore kn.store)
    ∧ (∃ file, format.serialize kn2.keystore_file = .ok file
        ∧ fs2.target = some file) := by
  simp only [Keynest.save] at h
  split at h
  · exact Res.noConfusion h
  · rename_i file hser
    split at h
    · exact Res.noConfusion h
    · exact Res.noConfusion h
    · rename_i u fs3 hsv
      injection h with h1 h2
      subst h2
      rw [← h1]
      refine ⟨rfl, rfl, rfl, rfl, rfl, rfl, rfl, file, hser, ?_⟩
      unfold Storage.save at hsv
      rcases hpf : Storage.random_tmp_path path rand with _ | tmpn
      · rw [hpf] at hsv
        exact Res.noConfusion hsv
      · rw [hpf] at hsv
        by_cases hb1 : fs.tmp.isSome
        · rw [if_pos hb1] at hsv
          exact Res.noConfusion hsv
        · rw [if_neg hb1] at hsv
          by_cases hb2 : replaceFails
          · rw [if_pos hb2] at hsv
            exact Res.noConfusion hsv
          · rw [if_neg hb2] at hsv
            injection hsv with h3 h4
            rw [← h4]

theorem init_ok (pw : String) (kdf : KdfParams) (salt nonce : Bytes)
    (now fn rand : String) (fs : FsState)
    (hva : kdf.validate = .ok ())
    (hsa : salt.length = 16) (hn : nonce.length = 24)
    (htgt : fs.target = none) (htmp : fs.tmp = none) :
    ∃ file,
      format.serialize (KeystoreFile.new kdf salt nonce
        (cipherSeal (argon2Hash pw salt kdf) nonce
          (encodeStore (Store.new now)))) = .ok file
      ∧ Keynest.init_with_storage_and_kdf pw kdf salt nonce now ⟨some fn⟩
          rand false fs
        = .ok ⟨Store.new now, argon2Hash pw salt kdf,
            KeystoreFile.new kdf salt nonce
              (cipherSeal (argon2Hash pw salt kdf) nonce
                (encodeStore (Store.new now)))⟩ ⟨some file, none⟩
      ∧ 57 ≤ file.length := by
  have hser := serialize_eval (KeystoreFile.new kdf salt nonce
    (cipherSeal (argon2Hash pw salt kdf) nonce
      (encodeStore (Store.new now)))) rfl hsa hn
  refine ⟨_, hser, ?_, ?_⟩
  · simp only [Keynest.init_with_storage_and_kdf]
    rw [if_neg (by simp [Storage.exists, htgt])]
    have hdk : derive_key pw salt kdf = .ok (argon2Hash pw salt kdf) := by
      unfold derive_key
      simp only [hva]
      rw [if_neg (by omega)]
    simp only [hdk, encrypt]
    simp only [hser]
    rw [storage_save_ok fn rand _ fs htmp]
  · obtain ⟨_, _, _, _, _, _, _, _, elen⟩ :=
      headerSlices 1 kdf.mem_cost_kib kdf.time_cost kdf.parallelism salt
        nonce (cipherSeal (argon2Hash pw salt kdf) nonce
          (encodeStore (Store.new now))) _ hsa hn rfl
    simp only [KeystoreFile.new]
    omega

theorem save_ok (kn : Keynest) (nonce : Bytes) (fn rand : String)
    (fs : FsState)
    (hs : kn.keystore_file.salt.length = 16) (hn : nonce.length = 24)
    (htmp : fs.tmp = none) :
    ∃ file, format.serialize (KeystoreFile.new kn.keystore_file.kdf
        kn.keystore_file.salt nonce
        (cipherSeal kn.key nonce (encodeStore kn.store))) = .ok file
      ∧ kn.save nonce ⟨some fn⟩ rand false fs
        = .ok { kn with
                keystore_file := KeystoreFile.new kn.keystore_file.kdf
                  kn.keystore_file.salt nonce
                  (cipherSeal kn.key nonce (encodeStore kn.store)) }
          ⟨some file, none⟩ := by
  have hser := serialize_eval (KeystoreFile.new kn.keystore_file.kdf
    kn.keystore_file.salt nonce
    (cipherSeal kn.key nonce (encodeStore kn.store))) rfl hs hn
  refine ⟨_, hser, ?_⟩
  simp only [Keynest.save, encrypt]
  simp only [hser]
  rw [storage_save_ok fn rand _ fs htmp]

theorem open_ok (pw : String) (st : Store) (kf : KeystoreFile)
    (fs : FsState) (file : Bytes)
    (hv : kf.version = 1) (hva : kf.kdf.validate = .ok ())
    (hm : kf.kdf.mem_cost_kib < 4294967296)
    (ht : kf.kdf.time_cost < 4294967296)
    (hp : kf.kdf.parallelism < 4294967296)
    (hs : kf.salt.length = 16) (hn : kf.nonce.length = 24)
    (hct : kf.ciphertext
      = cipherSeal (argon2Hash pw kf.salt kf.kdf) kf.nonce (encodeStore st))
    (htgt : fs.target = some file)
    (hser : format.serialize kf = .ok file) :
    Keynest.open_with_storage pw fs
      = .ok ⟨st, argon2Hash pw kf.salt kf.kdf, kf⟩ fs := by
  obtain ⟨file2, hser2, hparse2, _⟩ := parse_serialize kf hv hva hm ht hp hs hn
  have hfile : file = file2 := by
    rw [hser] at hser2
    exact Except.ok.inj hser2
  subst hfile
  unfold Keynest.open_with_storage
  have hex : Storage.exists fs = true := by
    rw [Storage.exists, htgt]
    rfl
  rw [if_neg (by simp [hex])]
  have hload : Storage.load fs = .ok file := by
    unfold Storage.load
    rw [htgt]
  simp only [hload]
  simp only [hparse2]
  have hdk : derive_key pw kf.salt kf.kdf
      = .ok (argon2Hash pw kf.salt kf.kdf) := by
    unfold derive_key
    simp only [hva]
    rw [if_neg (by omega)]
  simp only [hdk]
  have hde : decrypt (argon2Hash pw kf.salt kf.kdf) kf.nonce kf.ciphertext
      = .ok (encodeStore st) := by
    rw [hct]
    exact cipher_round_trip _ _ _
  simp only [hde]
  simp only [decodeStore_enc]

theorem save_frame_witness :
    ∃ kn2 fs2,
      (Keynest.mk (Store.mk [] "t0") (List.replicate 32 3)
        (KeystoreFile.new KdfParams.default (List.replicate 16 4)
          (List.replicate 24 5) [9])).save (List.replicate 24 6)
        ⟨some "db"⟩ "r" false ⟨some [0], none⟩ = .ok kn2 fs2
      ∧ kn2.store = Store.mk [] "t0" := by
  obtain ⟨file, hser, hsave⟩ := save_ok
    (Keynest.mk (Store.mk [] "t0") (List.replicate 32 3)
      (KeystoreFile.new KdfParams.default (List.replicate 16 4)
        (List.replicate 24 5) [9]))
    (List.replicate 24 6) "db" "r" ⟨some [0], none⟩ rfl rfl rfl
  exact ⟨_, _, hsave, (save_frame _ _ _ _ _ _ _ _ hsave).1⟩

/-- C1: starting from a path with no keystore file, `init(pw, default KDF)`
succeeds and creates a file of at least 57 bytes; after `set("A","B")` and
`save()`, an `open(pw)` in a fresh session on the same path succeeds and
`get("A")` returns `Some("B")`. -/
theorem end_to_end_round_trip (pw now1 now2 rand1 rand2 fn : String)
    (salt nonce1 nonce2 : Bytes)
    (hsa : salt.length = 16) (hn1 : nonce1.length = 24)
    (hn2 : nonce2.length = 24) :
    ∃ kn1 fs1 kn2 kn3 fs2 kn4,
      Keynest.init_with_storage_and_kdf pw KdfParams.default salt nonce1
        now1 ⟨some fn⟩ rand1 false ⟨none, none⟩ = .ok kn1 fs1
      ∧ (∃ file, fs1.target = some file ∧ 57 ≤ file.length)
      ∧ kn1.set "A" "B" now2 = .ok kn2
      ∧ kn2.save nonce2 ⟨some fn⟩ rand2 false fs1 = .ok kn3 fs2
      ∧ Keynest.open_with_storage pw fs2 = .ok kn4 fs2
      ∧ kn4.get "A" = some "B" := by
  obtain ⟨file1, hser1, hinit, hlen1⟩ := init_ok pw KdfParams.default salt
    nonce1 now1 fn rand1 ⟨none, none⟩ rfl hsa hn1 rfl rfl
  obtain ⟨file2, hser2, hsave⟩ := save_ok
    (Keynest.mk (Store.mk [("A", SecretEntry.new "A" "B" now2)] now1)
      (argon2Hash pw salt KdfParams.default)
      (KeystoreFile.new KdfParams.default salt nonce1
        (cipherSeal (argon2Hash pw salt KdfParams.default) nonce1
          (encodeStore (Store.new now1)))))
    nonce2 fn rand2 ⟨some file1, none⟩ hsa hn2 rfl
  have hopen := open_ok pw
    (Store.mk [("A", SecretEntry.new "A" "B" now2)] now1)
    (KeystoreFile.new KdfParams.default salt nonce2
      (cipherSeal (argon2Hash pw salt KdfParams.default) nonce2
        (encodeStore (Store.mk [("A", SecretEntry.new "A" "B" now2)] now1))))
    ⟨some file2, none⟩ file2
    rfl rfl (by show (64 * 1024 : Nat) < 4294967296; decide)
    (by show (3 : Nat) < 4294967296; decide)
    (by show (1 : Nat) < 4294967296; decide) hsa hn2 rfl rfl hser2
  refine ⟨Keynest.mk (Store.new now1) (argon2Hash pw salt KdfParams.default)
      (KeystoreFile.new KdfParams.default salt nonce1
        (cipherSeal (argon2Hash pw salt KdfParams.default) nonce1
          (encodeStore (Store.new now1)))),
    ⟨some file1, none⟩,
    Keynest.mk (Store.mk [("A", SecretEntry.new "A" "B" now2)] now1)
      (argon2Hash pw salt KdfParams.default)
      (KeystoreFile.new KdfParams.default salt nonce1
        (cipherSeal (argon2Hash pw salt KdfParams.default) nonce1
          (encodeStore (Store.new now1)))),
    Keynest.mk (Store.mk [("A", SecretEntry.new "A" "B" now2)] now1)
      (argon2Hash pw salt KdfParams.default)
      (KeystoreFile.new KdfParams.default salt nonce2
        (cipherSeal (argon2Hash pw salt KdfParams.default) nonce2
          (encodeStore (Store.mk [("A", SecretEntry.new "A" "B" now2)]
            now1)))),
    ⟨some file2, none⟩,
    Keynest.mk (Store.mk [("A", SecretEntry.new "A" "B" now2)] now1)
      (argon2Hash pw salt KdfParams.default)
      (KeystoreFile.new KdfParams.default salt nonce2
        (cipherSeal (argon2Hash pw salt KdfParams.default) nonce2
          (encodeStore (Store.mk [("A", SecretEntry.new "A" "B" now2)]
            now1)))),
    hinit, ⟨file1, rfl, hlen1⟩, rfl, ?_, ?_, rfl⟩
  · exact hsave
  · exact hopen

theorem end_to_end_round_trip_witness :
    ∃ kn1 fs1 kn2 kn3 fs2 kn4,
      Keynest.init_with_storage_and_kdf "pw" KdfParams.default
        (List.replicate 16 1) (List.replicate 24 2) "t1" ⟨some "db"⟩ "r1"
        false ⟨none, none⟩ = .ok kn1 fs1
      ∧ (∃ file, fs1.target = some file ∧ 57 ≤ file.length)
      ∧ kn1.set "A" "B" "t2" = .ok kn2
      ∧ kn2.save (List.replicate 24 3) ⟨some "db"⟩ "r2" false fs1
          = .ok kn3 fs2
      ∧ Keynest.open_with_storage "pw" fs2 = .ok kn4 fs2
      ∧ kn4.get "A" = some "B" :=
  end_to_end_round_trip "pw" "t1" "t2" "r1" "r2" "db"
    (List.replicate 16 1) (List.replicate 24 2) (List.replicate 24 3)
    rfl rfl rfl
